import Mathlib

/-!
# Log replay (`undiff`) of `shared/desktop/yarn-helper.js` and `prettify` of `shared/constants/tabs.js`

A shallow embedding of the two JavaScript sources.

* JavaScript values that the replay handles are JSON values and `undefined` (`Json`).  An object
  keeps its fields in insertion order; a number is kept as an exact decimal
  `mantissa * 10 ^ exponent`.
* A JavaScript string is a list of characters.
* A call that can throw returns `Except String _`; an uncaught exception ends `undiff` before
  `log.json` is written.
* `JSON.parse` and `deepdiff.applyChange` are not part of the repository.  Every definition that
  uses them takes them as arguments; `jsonParse` and `applyChange` below are models of the two,
  used to evaluate examples.
* The two user-editable filters are functions from such values to such values.
-/

set_option autoImplicit false
set_option maxRecDepth 1000000

namespace YarnHelper

/-! ## JSON values -/

/-- A JavaScript value: what `JSON.parse` can give, and `undefined`, which an absent property,
an absent operand of a change or a hole of an array reads as. -/
inductive Json where
  | null
  | undefined
  | bool (b : Bool)
  | num (mantissa : Int) (exponent : Int)
  | str (s : String)
  | arr (items : List Json)
  | obj (fields : List (String × Json))

instance : Inhabited Json := ⟨Json.null⟩

/-- JavaScript truthiness (`if (v)`, `v && …`, `.filter(v => v)`): `null`, `undefined`, `false`,
zero and the empty string are falsy, every array and object is truthy. -/
def truthy : Json → Bool
  | .null => false
  | .undefined => false
  | .bool b => b
  | .num m _ => m != 0
  | .str s => s.data != []
  | .arr _ => true
  | .obj _ => true

/-- The own fields of a value; only objects made by `JSON.parse` or an object literal have named
own fields that matter here. -/
def ownFields : Json → List (String × Json)
  | .obj kvs => kvs
  | _ => []

/-- Whether `key` is an own property name of the value (the test `hasOwnProperty` performs). -/
def hasOwn (v : Json) (key : String) : Bool :=
  (ownFields v).any fun kv => kv.1 == key

/-- Property read `v.key` / `v[key]` for a key that no prototype defines: the own field, or
`undefined` when there is none. -/
def getProp (v : Json) (key : String) : Json :=
  ((ownFields v).lookup key).getD Json.undefined

/-- The method call `part.hasOwnProperty(key)`.  The method is found on the prototype unless the
value has an own field named `hasOwnProperty`; such a field holds data, which is not callable,
and the call throws `TypeError`. -/
def callHasOwnProperty (part : Json) (key : String) : Except String Bool :=
  if hasOwn part "hasOwnProperty" then
    .error "TypeError: part.hasOwnProperty is not a function"
  else
    .ok (hasOwn part key)

/-- Assign `obj[key] = value` on a field list: an existing field keeps its position. -/
def setField (key : String) (value : Json) : List (String × Json) → List (String × Json)
  | [] => [(key, value)]
  | (k, v) :: rest =>
    if k == key then (k, value) :: rest else (k, v) :: setField key value rest

/-- Remove the field `key` (`delete obj[key]`) from a field list. -/
def eraseField (key : String) (fields : List (String × Json)) : List (String × Json) :=
  fields.filter fun kv => !(kv.1 == key)

/-! ## Strings -/

/-- The array `log.split('\n')`. -/
def splitLines : List Char → List (List Char)
  | [] => [[]]
  | c :: cs =>
    match splitLines cs with
    | [] => [[]]
    | l :: ls => if c = '\n' then [] :: l :: ls else (c :: l) :: ls

/-- The text after the leftmost occurrence of `pat` in the string, if `pat` occurs. -/
def afterFirst (pat : List Char) : List Char → Option (List Char)
  | [] => if pat.isEmpty then some [] else none
  | c :: cs =>
    if pat.isPrefixOf (c :: cs) then some ((c :: cs).drop pat.length) else afterFirst pat cs

/-- Whether the string contains `pat` (a regular expression made of literal characters only). -/
def containsText (pat s : List Char) : Bool :=
  (afterFirst pat s).isSome

/-- The characters that `.` of a regular expression does not match. -/
def isLineTerminator (c : Char) : Bool :=
  c == '\n' || c == '\r' || c == Char.ofNat 0x2028 || c == Char.ofNat 0x2029

/-- The longest run `.*` can match at the start of the string. -/
def dotStar (s : List Char) : List Char :=
  s.takeWhile fun c => !isLineTerminator c

/-- The longest prefix of the string that ends in `c`, if `c` occurs. -/
def uptoLast (c : Char) : List Char → Option (List Char)
  | [] => none
  | d :: ds =>
    match uptoLast c ds with
    | some r => some (d :: r)
    | none => if d = c then some [d] else none

/-! ## A model of `JSON.parse` -/

/-- Skip JSON white space (tab, line feed, carriage return, space). -/
def skipWs : List Char → List Char
  | [] => []
  | c :: cs => if c = ' ' ∨ c = '\t' ∨ c = '\n' ∨ c = '\r' then skipWs cs else c :: cs

/-- The value of a decimal digit. -/
def digitVal (c : Char) : Option Nat :=
  if '0' ≤ c ∧ c ≤ '9' then some (c.toNat - '0'.toNat) else none

/-- The value of a hexadecimal digit. -/
def hexVal (c : Char) : Option Nat :=
  if '0' ≤ c ∧ c ≤ '9' then some (c.toNat - '0'.toNat)
  else if 'a' ≤ c ∧ c ≤ 'f' then some (c.toNat - 'a'.toNat + 10)
  else if 'A' ≤ c ∧ c ≤ 'F' then some (c.toNat - 'A'.toNat + 10)
  else none

/-- Read a maximal run of decimal digits: the digits read so far (as a number), how many were
read, and the rest of the input. -/
def readDigits : List Char → Nat → Nat → Nat × Nat × List Char
  | [], acc, cnt => (acc, cnt, [])
  | c :: cs, acc, cnt =>
    match digitVal c with
    | some d => readDigits cs (acc * 10 + d) (cnt + 1)
    | none => (acc, cnt, c :: cs)

/-- Read the four hexadecimal digits of a `\u` escape. -/
def readHex4 : List Char → Option (Nat × List Char)
  | a :: b :: c :: d :: rest =>
    match hexVal a, hexVal b, hexVal c, hexVal d with
    | some x, some y, some z, some w => some (((x * 16 + y) * 16 + z) * 16 + w, rest)
    | _, _, _, _ => none
  | _ => none

/-- Drop trailing zeros of a mantissa, so that equal decimals have equal representations. -/
def normalizeNum : Nat → Int → Int → Int × Int
  | 0, m, e => (m, e)
  | fuel + 1, m, e =>
    if m = 0 then (0, 0)
    else if m % 10 = 0 then normalizeNum fuel (m / 10) (e + 1)
    else (m, e)

/-- Read a JSON number `-? int frac? exp?`; the input starts at the sign or first digit. -/
def parseNumber (cs : List Char) : Option (Json × List Char) :=
  let (neg, cs1) := match cs with
    | '-' :: r => (true, r)
    | _ => (false, cs)
  let (ip, icnt, cs2) := readDigits cs1 0 0
  if icnt = 0 then none
  else if icnt > 1 ∧ cs1.head? = some '0' then none
  else
    let fracPart : Option (Nat × Nat × List Char) := match cs2 with
      | '.' :: r =>
        let (fp, fcnt, r2) := readDigits r 0 0
        if fcnt = 0 then none else some (fp, fcnt, r2)
      | _ => some (0, 0, cs2)
    match fracPart with
    | none => none
    | some (fp, fcnt, cs3) =>
      let expPart : Option (Int × List Char) := match cs3 with
        | c :: r =>
          if c = 'e' ∨ c = 'E' then
            let (eneg, r1) := match r with
              | '-' :: t => (true, t)
              | '+' :: t => (false, t)
              | _ => (false, r)
            let (ev, ecnt, r2) := readDigits r1 0 0
            if ecnt = 0 then none
            else some (if eneg then -(ev : Int) else (ev : Int), r2)
          else some (0, cs3)
        | [] => some (0, cs3)
      match expPart with
      | none => none
      | some (ev, cs4) =>
        let mant : Int := ((ip * 10 ^ fcnt + fp : Nat) : Int)
        let (m, e) := normalizeNum (icnt + fcnt) (if neg then -mant else mant) (ev - fcnt)
        some (Json.num m e, cs4)

/-- Read the rest of a JSON string after its opening quote; `fuel` bounds the number of steps
and the length of the input is always enough.  A `\u` escape that is half of a surrogate pair
without its partner has no character of its own and is read as U+FFFD. -/
def parseString : Nat → List Char → List Char → Option (String × List Char)
  | 0, _, _ => none
  | _ + 1, [], _ => none
  | fuel + 1, c :: rest, acc =>
    if c = '"' then some (String.mk acc.reverse, rest)
    else if c = '\\' then
      match rest with
      | [] => none
      | e :: rest1 =>
        if e = '"' then parseString fuel rest1 ('"' :: acc)
        else if e = '\\' then parseString fuel rest1 ('\\' :: acc)
        else if e = '/' then parseString fuel rest1 ('/' :: acc)
        else if e = 'b' then parseString fuel rest1 (Char.ofNat 8 :: acc)
        else if e = 'f' then parseString fuel rest1 (Char.ofNat 12 :: acc)
        else if e = 'n' then parseString fuel rest1 ('\n' :: acc)
        else if e = 'r' then parseString fuel rest1 ('\r' :: acc)
        else if e = 't' then parseString fuel rest1 ('\t' :: acc)
        else if e = 'u' then
          match readHex4 rest1 with
          | none => none
          | some (hi, rest2) =>
            if 0xD800 ≤ hi ∧ hi ≤ 0xDBFF then
              match rest2 with
              | '\\' :: 'u' :: rest3 =>
                match readHex4 rest3 with
                | none => none
                | some (lo, rest4) =>
                  if 0xDC00 ≤ lo ∧ lo ≤ 0xDFFF then
                    parseString fuel rest4
                      (Char.ofNat (0x10000 + (hi - 0xD800) * 0x400 + (lo - 0xDC00)) :: acc)
                  else parseString fuel rest2 (Char.ofNat 0xFFFD :: acc)
              | _ => parseString fuel rest2 (Char.ofNat 0xFFFD :: acc)
            else if 0xDC00 ≤ hi ∧ hi ≤ 0xDFFF then
              parseString fuel rest2 (Char.ofNat 0xFFFD :: acc)
            else parseString fuel rest2 (Char.ofNat hi :: acc)
        else none
    else if c.toNat < 0x20 then none
    else parseString fuel rest (c :: acc)

mutual

/-- Read one JSON value; `fuel` bounds the nesting of calls. -/
def parseValue : Nat → List Char → Option (Json × List Char)
  | 0, _ => none
  | fuel + 1, cs =>
    match skipWs cs with
    | [] => none
    | c :: rest =>
      if c = '[' then
        match skipWs rest with
        | ']' :: rest1 => some (Json.arr [], rest1)
        | _ => (parseElements fuel rest).map fun r => (Json.arr r.1, r.2)
      else if c = '\x7b' then
        match skipWs rest with
        | '\x7d' :: rest1 => some (Json.obj [], rest1)
        | _ => (parseMembers fuel rest []).map fun r => (Json.obj r.1, r.2)
      else if c = '"' then
        (parseString rest.length rest []).map fun r => (Json.str r.1, r.2)
      else if c = 't' then
        match rest with
        | 'r' :: 'u' :: 'e' :: rest1 => some (Json.bool true, rest1)
        | _ => none
      else if c = 'f' then
        match rest with
        | 'a' :: 'l' :: 's' :: 'e' :: rest1 => some (Json.bool false, rest1)
        | _ => none
      else if c = 'n' then
        match rest with
        | 'u' :: 'l' :: 'l' :: rest1 => some (Json.null, rest1)
        | _ => none
      else parseNumber (c :: rest)

/-- Read the elements of a non-empty array up to and including the closing bracket. -/
def parseElements : Nat → List Char → Option (List Json × List Char)
  | 0, _ => none
  | fuel + 1, cs =>
    match parseValue fuel cs with
    | none => none
    | some (v, rest) =>
      match skipWs rest with
      | ',' :: rest1 => (parseElements fuel rest1).map fun r => (v :: r.1, r.2)
      | ']' :: rest1 => some ([v], rest1)
      | _ => none

/-- Read the members of a non-empty object up to and including the closing brace; a repeated
key overwrites the earlier value. -/
def parseMembers : Nat → List Char → List (String × Json) →
    Option (List (String × Json) × List Char)
  | 0, _, _ => none
  | fuel + 1, cs, acc =>
    match skipWs cs with
    | '"' :: rest =>
      match parseString rest.length rest [] with
      | none => none
      | some (key, rest1) =>
        match skipWs rest1 with
        | ':' :: rest2 =>
          match parseValue fuel rest2 with
          | none => none
          | some (v, rest3) =>
            match skipWs rest3 with
            | ',' :: rest4 => parseMembers fuel rest4 (setField key v acc)
            | '\x7d' :: rest4 => some (setField key v acc, rest4)
            | _ => none
        | _ => none
    | _ => none

end

/-- A model of `JSON.parse(text)`: the value of a JSON text, or `none` where `JSON.parse`
throws `SyntaxError`.  Each nested call consumes a character within two steps, so the fuel
`2 * length + 2` is never exhausted. -/
def jsonParse (text : List Char) : Option Json :=
  match parseValue (2 * text.length + 2) text with
  | some (v, rest) => if skipWs rest = [] then some v else none
  | none => none

/-! ## A model of `deepdiff.applyChange`

The package `deep-diff` is not part of the repository.  The model follows the library's
`applyChange`, `applyArrayChange` and `arrayRemove`, whose bodies are quoted with each
definition.  The kinds of a change are the strings `N` (new), `E` (edited), `D` (deleted) and
`A` (a change within an array); any other kind applies nothing.

The library mutates the store in place.  Here every function returns the container as the call
left it, and the caller stores it back at the place it was read from. -/

/-- The two release lines of `deep-diff`: 0.3.x (`legacy`) and 1.0.x (`current`).  Their
`applyChange` differ in which path step decides whether a missing container is created as an
array, and in whether kind `A` creates a missing array.  Which release the application
installs is fixed outside the two source files, so what is evaluated through the model is
stated for both. -/
inductive Release where
  | legacy
  | current

/-- What a call into the library leaves behind: the container after a call that returned
(`done`) or threw (`threw`).  `unmodelled` marks a call that leaves what this model represents:
a path that is not an array of strings and integers, a member inherited from a prototype, a
property of an array other than an element, a property of a string, number or boolean. -/
inductive Outcome where
  | done (value : Json)
  | threw (value : Json)
  | unmodelled

/-- What reading a member gives: a value, a `TypeError`, or a read outside the model. -/
inductive Read where
  | value (v : Json)
  | threw
  | unmodelled

/-- The property names of `Object.prototype`, which a read of an object finds when the object
has no own property of that name. -/
def inheritedNames : List String :=
  [ "constructor", "hasOwnProperty", "isPrototypeOf", "propertyIsEnumerable",
    "toLocaleString", "toString", "valueOf", "__proto__",
    "__defineGetter__", "__defineSetter__", "__lookupGetter__", "__lookupSetter__" ]

/-- The property name that a path step stands for: a string is its own name and an integer is
named by its decimal digits.  Other steps, and the name `__proto__`, are outside the model. -/
def propertyName : Json → Option String
  | .str s => if s = "__proto__" then none else some s
  | .num m e =>
    if 0 ≤ e ∧ (m * 10 ^ e.toNat).natAbs ≤ 2 ^ 53 then some (toString (m * 10 ^ e.toNat))
    else none
  | _ => none

/-- The array index that a property name stands for: decimal digits without a leading zero,
below `2 ^ 32 - 1`. -/
def arrayIndex (name : String) : Option Nat :=
  match readDigits name.data 0 0 with
  | (n, cnt, []) =>
    if cnt = 0 then none
    else if cnt > 1 ∧ name.data.head? = some '0' then none
    else if n < 4294967295 then some n
    else none
  | _ => none

/-- The read `it[key]`. -/
def readMember (it key : Json) : Read :=
  match it with
  | .null => .threw
  | .undefined => .threw
  | .obj fields =>
    match propertyName key with
    | none => .unmodelled
    | some name =>
      match fields.lookup name with
      | some v => .value v
      | none => if name ∈ inheritedNames then .unmodelled else .value .undefined
  | .arr items =>
    match (propertyName key).bind arrayIndex with
    | some i => .value (items.getD i .undefined)
    | none => .unmodelled
  | _ => .unmodelled

/-- The assignment `items[i] = value` on the elements of an array; an index past the end leaves
holes before it. -/
def setAt (items : List Json) (i : Nat) (value : Json) : List Json :=
  if i < items.length then items.set i value
  else items ++ List.replicate (i - items.length) .undefined ++ [value]

/-- The assignment `it[key] = value`. -/
def writeMember (it key value : Json) : Outcome :=
  match it with
  | .null => .threw it
  | .undefined => .threw it
  | .obj fields =>
    match propertyName key with
    | none => .unmodelled
    | some name => .done (.obj (setField name value fields))
  | .arr items =>
    match (propertyName key).bind arrayIndex with
    | some i => .done (.arr (setAt items i value))
    | none => .unmodelled
  | _ => .unmodelled

/-- The statement `delete it[key]`; deleting an element of an array leaves a hole. -/
def deleteMember (it key : Json) : Outcome :=
  match it with
  | .null => .threw it
  | .undefined => .threw it
  | .obj fields =>
    match propertyName key with
    | none => .unmodelled
    | some name => .done (.obj (eraseField name fields))
  | .arr items =>
    match (propertyName key).bind arrayIndex with
    | some i => .done (.arr (if i < items.length then items.set i .undefined else items))
    | none => .unmodelled
  | _ => .unmodelled

/-- Whether a value is an object or an array, which a call can mutate in place. -/
def isContainer : Json → Bool
  | .obj _ => true
  | .arr _ => true
  | _ => false

/-- The container `it` after the member `child`, read from `it[key]`, was worked on in place
with the given outcome. -/
def nest (it key child : Json) (o : Outcome) : Outcome :=
  let back (c : Json) : Json :=
    if isContainer child then
      match writeMember it key c with
      | .done v => v
      | _ => it
    else it
  match o with
  | .done c => .done (back c)
  | .threw c => .threw (back c)
  | .unmodelled => .unmodelled

/-- The library's
`function arrayRemove(arr, from, to) {
  var rest = arr.slice((to || from) + 1 || arr.length);
  arr.length = from < 0 ? arr.length + from : from;
  arr.push.apply(arr, rest);
  return arr; }`, called without `to`.  A value that is not an array has no usable `slice`,
`length` and `push`, and the call throws. -/
def arrayRemove (arr index : Json) : Outcome :=
  match arr with
  | .arr items =>
    match index with
    | .undefined => .threw arr
    | .num m e =>
      if 0 ≤ e then
        let n : Int := m * 10 ^ e.toNat
        if 0 ≤ n then
          if n.toNat < 4294967296 then
            .done (.arr (items.take n.toNat ++ List.replicate (n.toNat - items.length) .undefined
              ++ items.drop (n.toNat + 1)))
          else .threw arr
        else if 0 ≤ (items.length : Int) + n then
          .done (.arr (items.take ((items.length : Int) + n).toNat
            ++ items.drop (((items.length : Int) + n).toNat + 1)))
        else .threw arr
      else .unmodelled
    | _ => .unmodelled
  | _ => .threw arr

/-- The kind of a change when it is one of the four the library knows. -/
def kindOf (change : Json) : String :=
  match getProp change "kind" with
  | .str kind => kind
  | _ => ""

/-- The steps of `change.path` inside `applyArrayChange`, which tests
`change.path && change.path.length`: an empty list when the test fails. -/
def itemPath : Json → Option (List Json)
  | .arr steps => some steps
  | .undefined => some []
  | .null => some []
  | .bool _ => some []
  | .num _ _ => some []
  | .str s => if s.data = [] then some [] else none
  | .obj _ => none

/-- The first branch of `applyArrayChange`, after `var it = arr[index]`:
`for (i = 0; i < u; i++) { it = it[change.path[i]]; }` and then
`switch (change.kind) {
  case 'A': applyArrayChange(it[change.path[i]], change.index, change.item); break;
  case 'D': delete it[change.path[i]]; break;
  case 'E': case 'N': it[change.path[i]] = change.rhs; break; }`.
`applyItem` is the recursive call. -/
def walkItem (applyItem : Json → Json → Json → Outcome) (change : Json) :
    List Json → Json → Outcome
  | [], it => .done it
  | [key], it =>
    if kindOf change = "A" then
      match readMember it key with
      | .threw => .threw it
      | .unmodelled => .unmodelled
      | .value sub =>
        nest it key sub (applyItem sub (getProp change "index") (getProp change "item"))
    else if kindOf change = "D" then deleteMember it key
    else if kindOf change = "E" ∨ kindOf change = "N" then
      writeMember it key (getProp change "rhs")
    else .done it
  | key :: next :: rest, it =>
    match readMember it key with
    | .threw => .threw it
    | .unmodelled => .unmodelled
    | .value sub => nest it key sub (walkItem applyItem change (next :: rest) sub)

/-- The library's
`function applyArrayChange(arr, index, change) {
  if (change.path && change.path.length) {
    var it = arr[index], i, u = change.path.length - 1;
    … (see walkItem)
  } else {
    switch (change.kind) {
      case 'A': applyArrayChange(arr[index], change.index, change.item); break;
      case 'D': arr = arrayRemove(arr, index); break;
      case 'E': case 'N': arr[index] = change.rhs; break; } }
  return arr; }`.
The fuel bounds the nesting of `item` inside `item`; the depth of the change is enough. -/
def applyArrayChange : Nat → Json → Json → Json → Outcome
  | 0, _, _, _ => .unmodelled
  | fuel + 1, arr, index, change =>
    match change with
    | .null => .threw arr
    | .undefined => .threw arr
    | _ =>
      match itemPath (getProp change "path") with
      | none => .unmodelled
      | some [] =>
        if kindOf change = "A" then
          match readMember arr index with
          | .threw => .threw arr
          | .unmodelled => .unmodelled
          | .value sub =>
            nest arr index sub
              (applyArrayChange fuel sub (getProp change "index") (getProp change "item"))
        else if kindOf change = "D" then arrayRemove arr index
        else if kindOf change = "E" ∨ kindOf change = "N" then
          writeMember arr index (getProp change "rhs")
        else .done arr
      | some (key :: rest) =>
        match readMember arr index with
        | .threw => .threw arr
        | .unmodelled => .unmodelled
        | .value sub =>
          nest arr index sub (walkItem (applyArrayChange fuel) change (key :: rest) sub)

mutual

/-- The nesting depth of a value. -/
def depth : Json → Nat
  | .arr items => depthItems items + 1
  | .obj fields => depthFields fields + 1
  | _ => 0

/-- The largest depth among the elements of an array. -/
def depthItems : List Json → Nat
  | [] => 0
  | x :: xs => max (depth x) (depthItems xs)

/-- The largest depth among the fields of an object. -/
def depthFields : List (String × Json) → Nat
  | [] => 0
  | (_, x) :: xs => max (depth x) (depthFields xs)

end

/-- Whether a path step is a number (`typeof step === 'number'`). -/
def isNumber : Json → Bool
  | .num _ _ => true
  | _ => false

/-- The body of `applyChange` for a path of at least one step:
`while (++i < last) {
  if (typeof it[change.path[i]] === 'undefined') {
    it[change.path[i]] = (typeof change.path[i] === 'number') ? [] : {}; }
  it = it[change.path[i]]; }` (release 0.3.x; release 1.0.x tests `change.path[i + 1]`), then
`switch (change.kind) {
  case 'A': applyArrayChange(change.path ? it[change.path[i]] : it, change.index, change.item);
    break;
  case 'D': delete it[change.path[i]]; break;
  case 'E': case 'N': it[change.path[i]] = change.rhs; break; }`
(release 1.0.x first sets `it[change.path[i]] = []` under kind `A` when it is `undefined`). -/
def walk (release : Release) (applyItem : Json → Json → Json → Outcome) (change : Json) :
    List Json → Json → Outcome
  | [], it => .done it
  | [key], it =>
    if kindOf change = "A" then
      match readMember it key with
      | .threw => .threw it
      | .unmodelled => .unmodelled
      | .value sub =>
        match release, sub with
        | .current, .undefined =>
          match writeMember it key (.arr []) with
          | .done it1 =>
            nest it1 key (.arr [])
              (applyItem (.arr []) (getProp change "index") (getProp change "item"))
          | other => other
        | _, _ =>
          nest it key sub (applyItem sub (getProp change "index") (getProp change "item"))
    else if kindOf change = "D" then deleteMember it key
    else if kindOf change = "E" ∨ kindOf change = "N" then
      writeMember it key (getProp change "rhs")
    else .done it
  | key :: next :: rest, it =>
    match readMember it key with
    | .threw => .threw it
    | .unmodelled => .unmodelled
    | .value sub =>
      match sub with
      | .undefined =>
        let fresh : Json :=
          if isNumber (match release with | .legacy => key | .current => next) then .arr []
          else .obj []
        match writeMember it key fresh with
        | .done it1 => nest it1 key fresh (walk release applyItem change (next :: rest) fresh)
        | other => other
      | _ => nest it key sub (walk release applyItem change (next :: rest) sub)

/-- The switch of `applyChange` for a change whose `path` is `undefined` or `null`: kind `A`
works on the store itself (`change.path ? it[change.path[i]] : it`), the kinds `D`, `E` and `N`
read `change.path[i]`, which throws, and any other kind applies nothing. -/
def applyWithoutPath (store change : Json) : Outcome :=
  if kindOf change = "A" then
    applyArrayChange (depth change + 1) store (getProp change "index") (getProp change "item")
  else if kindOf change = "D" ∨ kindOf change = "E" ∨ kindOf change = "N" then .threw store
  else .done store

/-- The library's `applyChange(target, source, change)` called as
`deepdiff.applyChange(store, store, change)`:
`if (target && source && change && change.kind) { var it = target, i = -1,
  last = change.path ? change.path.length - 1 : 0; … (see walk) }`. -/
def applyChangeModel (release : Release) (store change : Json) : Outcome :=
  if truthy store && truthy change && truthy (getProp change "kind") then
    match getProp change "path" with
    | .arr (key :: rest) =>
      walk release (applyArrayChange (depth change + 1)) change (key :: rest) store
    | .arr [] => .unmodelled
    | .undefined => applyWithoutPath store change
    | .null => applyWithoutPath store change
    | _ => .unmodelled
  else .done store

/-- The call `deepdiff.applyChange(store, store, change)` as the replay sees it: the store
after the call and whether the call threw.  A call outside the model counts as one that threw
and changed nothing. -/
def applyChange (release : Release) (store change : Json) : Json × Bool :=
  match applyChangeModel release store change with
  | .done v => (v, false)
  | .threw v => (v, true)
  | .unmodelled => (store, true)

/-! ## `undiff` -/

/-- The function `storeFilter` as the source ships it: it returns the store unchanged. -/
def storeFilter (store : Json) : Json := store

/-- The function `actionFilter` as the source ships it: it returns the action unchanged. -/
def actionFilter (action : Json) : Json := action

/-- The predicate `lineFilter`:
`line.startsWith('From Keybase: ') && line.match(/ Diff: /) || line.match(/ Dispatching action: /)`. -/
def lineFilter (line : List Char) : Bool :=
  ("From Keybase: ".toList.isPrefixOf line && containsText " Diff: ".toList line)
    || containsText " Dispatching action: ".toList line

/-- The capture group of `line.match(/ Diff: {2}(.*)/)`: the text after the leftmost
` Diff:` followed by two spaces, up to the first line terminator. -/
def matchDiff (line : List Char) : Option (List Char) :=
  (afterFirst " Diff:  ".toList line).map dotStar

/-- Match `(.*): {2}(\{.*\})` at the start of `seg`, a string without line terminators.  Both
`.*` are greedy: the name is the longest that leaves a colon, two spaces, an opening brace and a
later closing brace, and the payload runs to the last closing brace. -/
def matchActionTail : List Char → Option (List Char × List Char)
  | [] => none
  | c :: cs =>
    match matchActionTail cs with
    | some (name, payload) => some (c :: name, payload)
    | none =>
      if ":  \x7b".toList.isPrefixOf (c :: cs) then
        (uptoLast '\x7d' ((c :: cs).drop 4)).map fun body => ([], '\x7b' :: body)
      else none

/-- The two capture groups of `line.match(/ Dispatching action: (.*): {2}(\{.*\})/)`, tried at
each occurrence of the marker from the left. -/
def matchAction : List Char → Option (List Char × List Char)
  | [] => none
  | c :: cs =>
    if " Dispatching action: ".toList.isPrefixOf (c :: cs) then
      match matchActionTail (dotStar ((c :: cs).drop 21)) with
      | some groups => some groups
      | none => matchAction cs
    else matchAction cs

/-- The function `lineToActionOrDiff`.  `parse` is `JSON.parse`, `none` where it throws; the
source does not catch that exception.  The results are the object `{diff: parsed}`, the object
`{action: …}` or `null`. -/
def lineToActionOrDiff (parse : List Char → Option Json) (line : List Char) :
    Except String Json :=
  match matchDiff line with
  | some text =>
    match parse text with
    | none => .error "SyntaxError: JSON.parse"
    | some parsed =>
      if truthy parsed then .ok (.obj [("diff", parsed)]) else .ok .null
  | none =>
    match matchAction line with
    | some (_, text) =>
      match parse text with
      | none => .error "SyntaxError: JSON.parse"
      | some action => .ok (.obj [("action", action)])
    | none => .ok .null

/-- The test `part && part.hasOwnProperty('action')` that `buildStore`, `filterStore` and
`filterActions` start with. -/
def isActionPart (part : Json) : Except String Bool :=
  if truthy part then callHasOwnProperty part "action" else .ok false

/-- An element of the array that `.map(buildStore)` returns: `buildStore` returns either its
argument or the one `store` object, and every element of the second kind is the same object. -/
inductive Built where
  | value (part : Json)
  | store

mutual

/-- Whether converting a value to a string throws, as the template literal of the catch handler
does with `${diff}`.  An object with an own property `toString` has no callable `toString` (the
property holds data) and its `valueOf` returns the object itself, so the conversion throws
`TypeError`; an array is joined, which converts each element other than `null` and
`undefined`. -/
def coercionThrows : Json → Bool
  | .obj fields => fields.any fun kv => kv.1 == "toString"
  | .arr items => anyCoercionThrows items
  | _ => false

/-- Whether converting some element of an array to a string throws. -/
def anyCoercionThrows : List Json → Bool
  | [] => false
  | x :: xs => coercionThrows x || anyCoercionThrows xs

end

/-- The statement
`try { deepdiff.applyChange(store, store, diff) }
 catch (err) { console.log(`Tried to apply change: ${diff} but failed, trying to continue. ${err}`) }`:
the store as the call left it.  When the call threw, the handler builds its message, and the
conversion of `diff` to a string can itself throw; that exception leaves the handler.  The
conversion of `err`, an error object that the library threw, does not throw.  What the console
shows is not modelled. -/
def applyCaught (applyChange : Json → Json → Json × Bool) (store diff : Json) :
    Except String Json :=
  if (applyChange store diff).2 && coercionThrows diff then
    .error "TypeError: Cannot convert object to primitive value"
  else .ok (applyChange store diff).1

/-- The method `Array.prototype.forEach` with a callback that works on the store and can
throw. -/
def forEachE (f : Json → Json → Except String Json) : Json → List Json → Except String Json
  | store, [] => .ok store
  | store, x :: xs =>
    match f store x with
    | .error e => .error e
    | .ok store1 => forEachE f store1 xs

/-- The function `buildStore`, with the variable `store` passed in and out: the store after
the call and the value returned. -/
def buildStore (applyChange : Json → Json → Json × Bool) (store part : Json) :
    Except String (Json × Built) :=
  match isActionPart part with
  | .error e => .error e
  | .ok true => .ok (store, .value part)
  | .ok false =>
    if truthy part && truthy (getProp part "diff") then
      match getProp part "diff" with
      | .arr diffs =>
        match forEachE (applyCaught applyChange) store diffs with
        | .error e => .error e
        | .ok store1 => .ok (store1, .store)
      | _ => .error "TypeError: part.diff.forEach is not a function"
    else .ok (store, .store)

/-- The function `filterStore`; `storeFilter` is the user-editable filter. -/
def filterStore (storeFilter : Json → Json) (part : Json) : Except String Json :=
  match isActionPart part with
  | .error e => .error e
  | .ok true => .ok part
  | .ok false => .ok (storeFilter part)

/-- The function `filterActions`; `actionFilter` is the user-editable filter. -/
def filterActions (actionFilter : Json → Json) (part : Json) : Except String Json :=
  match isActionPart part with
  | .error e => .error e
  | .ok true =>
    let action := actionFilter (getProp part "action")
    if truthy action then .ok (.obj [("action", action)]) else .ok .null
  | .ok false => .ok part

/-- The method `Array.prototype.map` with a callback that can throw. -/
def mapE {α β : Type} (f : α → Except String β) : List α → Except String (List β)
  | [] => .ok []
  | x :: xs =>
    match f x with
    | .error e => .error e
    | .ok y =>
      match mapE f xs with
      | .error e => .error e
      | .ok ys => .ok (y :: ys)

/-- The call `.map(buildStore)`: `buildStore` runs on each part in turn and each call goes on
from the store the previous one left. -/
def buildAll (applyChange : Json → Json → Json × Bool) :
    Json → List Json → Except String (Json × List Built)
  | store, [] => .ok (store, [])
  | store, part :: parts =>
    match buildStore applyChange store part with
    | .error e => .error e
    | .ok (store1, b) =>
      match buildAll applyChange store1 parts with
      | .error e => .error e
      | .ok (store2, bs) => .ok (store2, b :: bs)

/-- What an element of the array holds once `.map(buildStore)` has finished and the store is
`store`. -/
def deref (store : Json) : Built → Json
  | .value part => part
  | .store => store

/-- The function `undiff` from the text of `./log.txt` on: the array `parts` that it hands to
`JSON.stringify` for `./log.json`, or the exception that ends it before anything is written. -/
def undiff (parse : List Char → Option Json) (applyChange : Json → Json → Json × Bool)
    (storeFilter actionFilter : Json → Json) (log : String) : Except String (List Json) :=
  match mapE (lineToActionOrDiff parse) ((splitLines log.data).filter lineFilter) with
  | .error e => .error e
  | .ok parsed =>
    match buildAll applyChange (.obj []) (parsed.filter truthy) with
    | .error e => .error e
    | .ok (store, built) =>
      match mapE (filterStore storeFilter) (built.map (deref store)) with
      | .error e => .error e
      | .ok filtered =>
        match mapE (filterActions actionFilter) filtered with
        | .error e => .error e
        | .ok acted => .ok (acted.filter truthy)

/-- The store that `.map(buildStore)` leaves behind: the one object that every state entry of
`parts` refers to when `JSON.stringify` runs. -/
def finalStore (parse : List Char → Option Json) (applyChange : Json → Json → Json × Bool)
    (log : String) : Except String Json :=
  match mapE (lineToActionOrDiff parse) ((splitLines log.data).filter lineFilter) with
  | .error e => .error e
  | .ok parsed =>
    match buildAll applyChange (.obj []) (parsed.filter truthy) with
    | .error e => .error e
    | .ok (store, _) => .ok store

/-- Which reference `buildStore` returns for a part when it returns: its argument for an action
part, the store for every other part.  This depends neither on the store nor on what
`applyChange` does. -/
def returnedBy (part : Json) : Except String Built :=
  match isActionPart part with
  | .error e => .error e
  | .ok true => .ok (.value part)
  | .ok false => .ok .store

/-- The entry of `parts` that one line of the log accounts for in a run that ends with the store
`store`: the line goes through `lineFilter`, `lineToActionOrDiff`, the first
`.filter(part => part)`, `buildStore` (of which the returned reference matters here),
`filterStore`, `filterActions` and the last `.filter(part => part)`; `none` when a filter drops
it. -/
def lineEntry (parse : List Char → Option Json) (storeFilter actionFilter : Json → Json)
    (store : Json) (line : List Char) : Option Json :=
  if lineFilter line then
    match lineToActionOrDiff parse line with
    | .error _ => none
    | .ok part =>
      if truthy part then
        match returnedBy part with
        | .error _ => none
        | .ok b =>
          match filterStore storeFilter (deref store b) with
          | .error _ => none
          | .ok p1 =>
            match filterActions actionFilter p1 with
            | .error _ => none
            | .ok p2 => if truthy p2 then some p2 else none
      else none
  else none

/-- The test `action.type.startsWith(pfx)` of the example in `actionFilter`, for an action
whose `type` is a string. -/
def typeStartsWith (pfx : String) (action : Json) : Bool :=
  match getProp action "type" with
  | .str t => pfx.toList.isPrefixOf t.toList
  | _ => false

/-- Whether a value is an object (a record), as opposed to `null`, a scalar or an array. -/
def isRecord : Json → Bool
  | .obj _ => true
  | _ => false

/-! ## Example inputs -/

/-- The end-to-end scenario of the spec (section 8) as the application logs it: the line format
that the patterns of `undiff` accept and the kinds that `deep-diff` records, `N` for the diff
line that creates `counter = 1` and `E` for the diff line that edits `counter` to 2. -/
def logEndToEnd : String :=
  "From Keybase: 1 Dispatching action: increment:  \x7b\"type\":\"increment\",\"payload\":\x7b\"n\":1\x7d\x7d\nFrom Keybase: 2 Diff:  [\x7b\"kind\":\"N\",\"path\":[\"counter\"],\"rhs\":1\x7d]\nFrom Keybase: 3 Diff:  [\x7b\"kind\":\"E\",\"path\":[\"counter\"],\"lhs\":1,\"rhs\":2\x7d]"

/-- The first two lines of `logEndToEnd`. -/
def logEndToEndFirstTwo : String :=
  "From Keybase: 1 Dispatching action: increment:  \x7b\"type\":\"increment\",\"payload\":\x7b\"n\":1\x7d\x7d\nFrom Keybase: 2 Diff:  [\x7b\"kind\":\"N\",\"path\":[\"counter\"],\"rhs\":1\x7d]"

/-- The entry of the action line of `logEndToEnd`. -/
def incrementEntry : Json :=
  .obj [("action", .obj [("type", .str "increment"), ("payload", .obj [("n", .num 1 0)])])]

/-- The array `parts` that `undiff` makes of `logEndToEnd`. -/
def timelineEndToEnd : List Json :=
  [incrementEntry, .obj [("counter", .num 2 0)], .obj [("counter", .num 2 0)]]

/-- The malformed-payload scenario of the spec (section 8) with the kind names the spec writes,
`New` and `Edit`, which are not kinds of `deep-diff`: the payload of the second line is cut
short and is not JSON. -/
def logMalformed : String :=
  "From Keybase: 1 Dispatching action: increment:  \x7b\"type\":\"increment\",\"payload\":\x7b\"n\":1\x7d\x7d\nFrom Keybase: 2 Diff:  [\x7b\"kind\":\"New\",\"path\":[\"counter\"]\nFrom Keybase: 3 Diff:  [\x7b\"kind\":\"Edit\",\"path\":[\"counter\"],\"lhs\":1,\"rhs\":2\x7d]"

/-- The log `logMalformed` without its second line. -/
def logMalformedRemoved : String :=
  "From Keybase: 1 Dispatching action: increment:  \x7b\"type\":\"increment\",\"payload\":\x7b\"n\":1\x7d\x7d\nFrom Keybase: 3 Diff:  [\x7b\"kind\":\"Edit\",\"path\":[\"counter\"],\"lhs\":1,\"rhs\":2\x7d]"

/-- A state filter that redacts every document. -/
def redactAll (_store : Json) : Json := .null

/-- A log of one diff line, which creates the top-level key `action` in the store. -/
def logStoreWithActionKey : String :=
  "From Keybase: 1 Diff:  [\x7b\"kind\":\"N\",\"path\":[\"action\"],\"rhs\":\x7b\"type\":\"chat\"\x7d\x7d]"

/-- A log of one action line. -/
def logChat : String :=
  "From Keybase: 1 Dispatching action: chat:  \x7b\"type\":\"chat\"\x7d"

/-- The entry of the action line of `logChat`. -/
def chatEntry : Json := .obj [("action", .obj [("type", .str "chat")])]

/-- An action filter that returns `null` for every action whose type starts with `gregor` and
a record of type `gregor.renamed` for every other action. -/
def renameFilter (action : Json) : Json :=
  if typeStartsWith "gregor" action then .null else .obj [("type", .str "gregor.renamed")]

/-- The action filter of the example in the source: `null` for every action whose type starts
with `gregor`, the action itself otherwise. -/
def dropGregor (action : Json) : Json :=
  if typeStartsWith "gregor" action then .null else action

/-- A log of two action lines, the first of a type that starts with `gregor`. -/
def logGregorChat : String :=
  "From Keybase: 1 Dispatching action: gregor.push:  \x7b\"type\":\"gregor.push\"\x7d\nFrom Keybase: 2 Dispatching action: chat:  \x7b\"type\":\"chat\"\x7d"

/-- A line that does not start with `From Keybase: `, carries the action marker and, after the
action payload, the text of a diff marker. -/
def lineNoteWithDiff : String :=
  "12:00 Dispatching action: note:  \x7b\"n\":1\x7d Diff:  [\x7b\"kind\":\"N\",\"path\":[\"x\"],\"rhs\":1\x7d]"

/-- An action line with the name `foo` and a payload of type `bar`. -/
def lineFooBar : String :=
  "From Keybase: 1 Dispatching action: foo:  \x7b\"type\":\"bar\"\x7d"

/-- The operation `{"kind":"N","path":["a"],"rhs":null}`, which sets `a` to `null`. -/
def opSetNull : Json :=
  .obj [("kind", .str "N"), ("path", .arr [.str "a"]), ("rhs", .null)]

/-- The operation `{"kind":"N","path":["a","b"],"rhs":1,"toString":0}`.  Once `a` is `null`
the library throws on it (it assigns a property of `null`), and the operation has an own key
`toString`. -/
def opThrows : Json :=
  .obj [("kind", .str "N"), ("path", .arr [.str "a", .str "b"]), ("rhs", .num 1 0),
    ("toString", .num 0 0)]

/-- The operation `{"kind":"N","path":["c"],"rhs":2}`, which sets `c` to 2. -/
def opSetC : Json :=
  .obj [("kind", .str "N"), ("path", .arr [.str "c"]), ("rhs", .num 2 0)]

/-- A log of one diff line whose record is `opSetNull`, `opThrows`, `opSetC`. -/
def logFailingOperation : String :=
  "From Keybase: 1 Diff:  [\x7b\"kind\":\"N\",\"path\":[\"a\"],\"rhs\":null\x7d,\x7b\"kind\":\"N\",\"path\":[\"a\",\"b\"],\"rhs\":1,\"toString\":0\x7d,\x7b\"kind\":\"N\",\"path\":[\"c\"],\"rhs\":2\x7d]"

end YarnHelper

namespace Tabs

/-! ## `shared/constants/tabs.js` -/

/-- The constant `startupTab`. -/
def startupTab : String := "tabs:startupTab"
/-- The constant `chatTab`. -/
def chatTab : String := "tabs:chatTab"
/-- The constant `loginTab`. -/
def loginTab : String := "tabs:loginTab"
/-- The constant `profileTab`. -/
def profileTab : String := "tabs:profileTab"
/-- The constant `peopleTab`. -/
def peopleTab : String := "tabs:peopleTab"
/-- The constant `devicesTab`. -/
def devicesTab : String := "tabs:devicesTab"
/-- The constant `folderTab`. -/
def folderTab : String := "tabs:folderTab"
/-- The constant `settingsTab`. -/
def settingsTab : String := "tabs:settingsTab"

/-- A value that the property read `prettyNames[tabName]` can give.  `inherited name` is the
member `name` that the object inherits from `Object.prototype`: a function, or for `__proto__`
the prototype object itself. -/
inductive Value where
  | undefined
  | null
  | str (s : String)
  | inherited (name : String)
  deriving DecidableEq

/-- The own properties of the object literal `prettyNames`. -/
def prettyNames : List (String × Value) :=
  [ (startupTab, .null),
    (folderTab, .str "Folders"),
    (chatTab, .str "Chat"),
    (peopleTab, .str "People"),
    (devicesTab, .str "Devices"),
    (settingsTab, .str "Settings"),
    (loginTab, .str "Login"),
    (profileTab, .str "Profile") ]

/-- The property names of `Object.prototype`, the prototype of an object literal. -/
def objectPrototypeNames : List String :=
  [ "constructor", "hasOwnProperty", "isPrototypeOf", "propertyIsEnumerable",
    "toLocaleString", "toString", "valueOf", "__proto__",
    "__defineGetter__", "__defineSetter__", "__lookupGetter__", "__lookupSetter__" ]

/-- The property read `prettyNames[tabName]`: an own property if there is one, else a member
of `Object.prototype`, else `undefined`. -/
def getPrettyName (tabName : String) : Value :=
  match prettyNames.lookup tabName with
  | some v => v
  | none => if tabName ∈ objectPrototypeNames then .inherited tabName else .undefined

/-- JavaScript truthiness of such a value: functions and objects are truthy. -/
def Value.truthy : Value → Bool
  | .undefined => false
  | .null => false
  | .str s => s.data != []
  | .inherited _ => true

/-- The function `prettify`: `prettyNames[tabName] || 'You have found a bug'`. -/
def prettify (tabName : String) : Value :=
  if (getPrettyName tabName).truthy then getPrettyName tabName
  else .str "You have found a bug"

end Tabs

namespace YarnHelper

/-! ## The replay as one pass over the lines -/

theorem mapE_ok_filterMap {α β : Type} (f : α → Except String β) :
    ∀ (l : List α) (r : List β), mapE f l = .ok r → r = l.filterMap fun x => (f x).toOption
  | [], r, h => by
    simp only [mapE, Except.ok.injEq] at h
    simp [← h]
  | x :: xs, r, h => by
    simp only [mapE] at h
    cases hx : f x with
    | error e => simp [hx] at h
    | ok y =>
      simp only [hx] at h
      cases hxs : mapE f xs with
      | error e => simp [hxs] at h
      | ok ys =>
        simp only [hxs, Except.ok.injEq] at h
        have ih := mapE_ok_filterMap f xs ys hxs
        have e : (f x).toOption = some y := by rw [hx]; rfl
        simp only [← h, List.filterMap_cons, e, ← ih]

theorem buildStore_returnedBy (ac : Json → Json → Json × Bool) (s s1 part : Json) (b : Built)
    (h : buildStore ac s part = .ok (s1, b)) : returnedBy part = .ok b := by
  unfold buildStore at h
  unfold returnedBy
  cases hi : isActionPart part with
  | error e => simp [hi] at h
  | ok isA =>
    cases isA with
    | true =>
      simp only [hi, Except.ok.injEq, Prod.mk.injEq] at h
      rw [h.2]
    | false =>
      simp only [hi] at h
      split at h
      · split at h
        · split at h
          · cases h
          · simp only [Except.ok.injEq, Prod.mk.injEq] at h
            rw [h.2]
        · cases h
      · simp only [Except.ok.injEq, Prod.mk.injEq] at h
        rw [h.2]

theorem buildAll_ok (ac : Json → Json → Json × Bool) :
    ∀ (parts : List Json) (s store : Json) (built : List Built),
      buildAll ac s parts = .ok (store, built) →
      built = parts.filterMap fun p => (returnedBy p).toOption
  | [], s, store, built, h => by
    simp only [buildAll, Except.ok.injEq, Prod.mk.injEq] at h
    simp [← h.2]
  | p :: ps, s, store, built, h => by
    simp only [buildAll] at h
    cases hp : buildStore ac s p with
    | error e => simp [hp] at h
    | ok r =>
      obtain ⟨s1, b⟩ := r
      simp only [hp] at h
      cases hps : buildAll ac s1 ps with
      | error e => simp [hps] at h
      | ok r2 =>
        obtain ⟨s2, bs⟩ := r2
        simp only [hps, Except.ok.injEq, Prod.mk.injEq] at h
        have ih := buildAll_ok ac ps s1 s2 bs hps
        have hb : (returnedBy p).toOption = some b := by
          rw [buildStore_returnedBy ac s s1 p b hp]; rfl
        simp only [← h.2, List.filterMap_cons, hb, ← ih]

theorem undiff_ok (parse : List Char → Option Json) (ac : Json → Json → Json × Bool)
    (sf af : Json → Json) (log : String) (tl : List Json)
    (h : undiff parse ac sf af log = .ok tl) :
    ∃ store, finalStore parse ac log = .ok store ∧
      tl = (splitLines log.data).filterMap (lineEntry parse sf af store) := by
  unfold undiff at h
  unfold finalStore
  cases h1 : mapE (lineToActionOrDiff parse) ((splitLines log.data).filter lineFilter) with
  | error e => simp [h1] at h
  | ok parsed =>
    simp only [h1] at h ⊢
    cases h2 : buildAll ac (.obj []) (parsed.filter truthy) with
    | error e => simp [h2] at h
    | ok r =>
      obtain ⟨store, built⟩ := r
      simp only [h2] at h ⊢
      refine ⟨store, rfl, ?_⟩
      cases h3 : mapE (filterStore sf) (built.map (deref store)) with
      | error e => simp [h3] at h
      | ok filtered =>
        simp only [h3] at h
        cases h4 : mapE (filterActions af) filtered with
        | error e => simp [h4] at h
        | ok acted =>
          simp only [h4, Except.ok.injEq] at h
          have e1 := mapE_ok_filterMap _ _ _ h1
          have e2 := buildAll_ok ac _ _ _ _ h2
          have e3 := mapE_ok_filterMap _ _ _ h3
          have e4 := mapE_ok_filterMap _ _ _ h4
          rw [← h, e4, e3, e2, e1]
          simp only [← List.filterMap_eq_filter, ← List.filterMap_eq_map,
            List.filterMap_filterMap]
          apply List.filterMap_congr
          intro line _
          simp only [lineEntry, Option.guard]
          by_cases hf : lineFilter line = true
          · simp only [hf, if_true, Option.some_bind]
            cases hl : lineToActionOrDiff parse line with
            | error e => simp [Except.toOption]
            | ok part =>
              simp only [Except.toOption, Option.some_bind]
              by_cases ht : truthy part = true
              · simp only [ht, if_true, Option.some_bind]
                cases hb : returnedBy part with
                | error e => simp
                | ok b =>
                  simp only [Option.some_bind, Function.comp]
                  cases hs : filterStore sf (deref store b) with
                  | error e => simp
                  | ok p1 =>
                    simp only [Option.some_bind]
                    cases ha : filterActions af p1 with
                    | error e => simp
                    | ok p2 => simp
              · simp [ht]
          · simp [hf]

theorem filterMap_map_some_sublist {α β : Type} (g : α → Option β) :
    ∀ l : List α, List.Sublist ((l.filterMap g).map some) (l.map g)
  | [] => by simp
  | x :: xs => by
    have ih := filterMap_map_some_sublist g xs
    rw [List.filterMap_cons]
    cases hx : g x with
    | none => simpa [hx] using ih.cons none
    | some y => simpa [hx] using ih.cons₂ (some y)

theorem filterMap_strictMono {α β : Type} (g : α → Option β) (l : List α) :
    ∃ f : Fin (l.filterMap g).length → Fin l.length,
      StrictMono f ∧ ∀ i, g (l.get (f i)) = some ((l.filterMap g).get i) := by
  obtain ⟨f, hf⟩ :=
    List.sublist_iff_exists_fin_orderEmbedding_get_eq.mp (filterMap_map_some_sublist g l)
  refine ⟨fun i => Fin.cast (by simp) (f (Fin.cast (by simp) i)), ?_, ?_⟩
  · intro i j hij
    have hlen : (l.filterMap g).length = ((l.filterMap g).map some).length := by simp
    have hij1 : Fin.cast hlen i < Fin.cast hlen j := hij
    exact f.strictMono hij1
  · intro i
    have := hf (Fin.cast (by simp) i)
    simp only [List.get_eq_getElem, List.getElem_map, Fin.coe_cast] at this
    simpa using this.symm

theorem truthy_obj (fields : List (String × Json)) : truthy (.obj fields) = true := rfl

theorem truthy_null : truthy .null = false := rfl

theorem isActionPart_actionWrapper (a : Json) :
    isActionPart (.obj [("action", a)]) = .ok true := by rfl

theorem isActionPart_diffWrapper (p : Json) :
    isActionPart (.obj [("diff", p)]) = .ok false := by rfl

theorem getProp_actionWrapper (a : Json) : getProp (.obj [("action", a)]) "action" = a := by rfl

theorem getProp_diffWrapper (p : Json) : getProp (.obj [("diff", p)]) "diff" = p := by rfl

theorem hasOwn_actionWrapper (a : Json) : hasOwn (.obj [("action", a)]) "action" = true := by rfl

theorem isActionPart_false (p : Json) (h : isActionPart p = .ok false) (ht : truthy p = true) :
    hasOwn p "action" = false := by
  unfold isActionPart callHasOwnProperty at h
  rw [if_pos ht] at h
  split at h
  · cases h
  · simpa using h

theorem isActionPart_true (p : Json) (h : isActionPart p = .ok true) :
    hasOwn p "action" = true := by
  unfold isActionPart callHasOwnProperty at h
  split at h
  · split at h
    · cases h
    · simpa using h
  · cases h

theorem matchAction_contains :
    ∀ (line : List Char) (groups : List Char × List Char), matchAction line = some groups →
      containsText " Dispatching action: ".toList line = true
  | [], _, h => by simp [matchAction] at h
  | c :: cs, groups, h => by
    unfold matchAction at h
    unfold containsText afterFirst
    by_cases hp : " Dispatching action: ".toList.isPrefixOf (c :: cs) = true
    · rw [if_pos hp]; rfl
    · rw [if_neg hp] at h
      rw [if_neg hp]
      exact matchAction_contains cs groups h

theorem lineFilter_of_matchAction (line : List Char) (groups : List Char × List Char)
    (h : matchAction line = some groups) : lineFilter line = true := by
  unfold lineFilter
  rw [matchAction_contains line groups h]
  simp

theorem returnedBy_actionWrapper (a : Json) :
    returnedBy (.obj [("action", a)]) = .ok (.value (.obj [("action", a)])) := by rfl

theorem returnedBy_diffWrapper (p : Json) : returnedBy (.obj [("diff", p)]) = .ok .store := by
  rfl

/-- An action line gives the entry `{action: actionFilter(payload)}`, or nothing when the
filter result is falsy. -/
theorem lineEntry_action_line (parse : List Char → Option Json) (sf af : Json → Json)
    (store : Json) (line name text : List Char) (a : Json) (hd : matchDiff line = none)
    (hm : matchAction line = some (name, text)) (hp : parse text = some a) :
    lineEntry parse sf af store line =
      if truthy (af a) then some (.obj [("action", af a)]) else none := by
  have hl : lineToActionOrDiff parse line = .ok (.obj [("action", a)]) := by
    simp only [lineToActionOrDiff, hd, hm, hp]
  have hs : filterStore sf (.obj [("action", a)]) = .ok (.obj [("action", a)]) := by
    simp only [filterStore, isActionPart_actionWrapper]
  simp only [lineEntry, lineFilter_of_matchAction line _ hm, if_true, hl, truthy_obj,
    returnedBy_actionWrapper, deref, hs, filterActions, isActionPart_actionWrapper,
    getProp_actionWrapper]
  by_cases ht : truthy (af a) = true
  · simp [ht, truthy_obj]
  · simp [ht, truthy_null]

/-- Every entry is either `{action: x}` with `x` a truthy result of the action filter, or a
value without an own key `action`. -/
theorem lineEntry_shape (parse : List Char → Option Json) (sf af : Json → Json) (store : Json)
    (line : List Char) (e : Json) (h : lineEntry parse sf af store line = some e) :
    (∃ a, e = .obj [("action", af a)] ∧ truthy (af a) = true) ∨ hasOwn e "action" = false := by
  unfold lineEntry at h
  split at h
  · split at h
    · cases h
    · split at h
      · split at h
        · cases h
        · split at h
          · cases h
          · rename_i p1 _
            unfold filterActions at h
            cases hi : isActionPart p1 with
            | error err => simp [hi] at h
            | ok b =>
              cases b with
              | true =>
                simp only [hi] at h
                left
                by_cases ht : truthy (af (getProp p1 "action")) = true
                · simp only [ht, if_true, truthy_obj, Option.some.injEq] at h
                  exact ⟨_, h.symm, ht⟩
                · simp [ht, truthy_null] at h
              | false =>
                simp only [hi] at h
                right
                split at h
                · rename_i ht
                  simp only [Option.some.injEq] at h
                  subst h
                  exact isActionPart_false _ hi ht
                · cases h
      · cases h
  · cases h

/-- An entry of a line that is not handled as a diff comes from an action line. -/
theorem lineEntry_not_diff (parse : List Char → Option Json) (sf af : Json → Json)
    (store : Json) (line : List Char) (e : Json)
    (h : lineEntry parse sf af store line = some e)
    (hd : matchDiff line = none) :
    ∃ name text a, matchAction line = some (name, text) ∧ parse text = some a ∧
      e = .obj [("action", af a)] := by
  cases hm : matchAction line with
  | none =>
    simp [lineEntry, lineToActionOrDiff, hd, hm, truthy_null] at h
  | some groups =>
    obtain ⟨name, text⟩ := groups
    cases hp : parse text with
    | none => simp [lineEntry, lineToActionOrDiff, hd, hm, hp] at h
    | some a =>
      rw [lineEntry_action_line parse sf af store line name text a hd hm hp] at h
      refine ⟨name, text, a, rfl, hp, ?_⟩
      split at h
      · simpa using h.symm
      · cases h

/-- The part that `lineToActionOrDiff` makes of a line with the diff marker, when it makes
one that passes `.filter(part => part)`, is `{diff: parsed}`. -/
theorem lineToActionOrDiff_diff_line (parse : List Char → Option Json) (line text : List Char)
    (part : Json) (hd : matchDiff line = some text)
    (hl : lineToActionOrDiff parse line = .ok part) (ht : truthy part = true) :
    ∃ parsed, part = .obj [("diff", parsed)] := by
  simp only [lineToActionOrDiff, hd] at hl
  cases hp : parse text with
  | none => simp [hp] at hl
  | some parsed =>
    simp only [hp] at hl
    split at hl
    · simp only [Except.ok.injEq] at hl
      exact ⟨parsed, hl.symm⟩
    · simp only [Except.ok.injEq] at hl
      rw [← hl, truthy_null] at ht
      cases ht

/-- An entry of a line that is handled as a diff is the filtered store, provided neither the
store nor the filtered store has an own key `action`. -/
theorem lineEntry_diff_line (parse : List Char → Option Json) (sf af : Json → Json)
    (store : Json) (line text : List Char) (e : Json)
    (h : lineEntry parse sf af store line = some e)
    (hd : matchDiff line = some text) (h1 : hasOwn store "action" = false)
    (h2 : hasOwn (sf store) "action" = false) : e = sf store := by
  unfold lineEntry at h
  split at h
  swap
  · cases h
  split at h
  · cases h
  · rename_i part hl
    split at h
    swap
    · cases h
    rename_i ht
    obtain ⟨parsed, rfl⟩ := lineToActionOrDiff_diff_line parse line text part hd hl ht
    simp only [returnedBy_diffWrapper, deref, filterStore] at h
    cases hi : isActionPart store with
    | error err => simp [hi] at h
    | ok isA =>
      cases isA with
      | true => rw [isActionPart_true store hi] at h1; cases h1
      | false =>
        simp only [hi, filterActions] at h
        cases hj : isActionPart (sf store) with
        | error err => simp [hj] at h
        | ok isB =>
          cases isB with
          | true => rw [isActionPart_true _ hj] at h2; cases h2
          | false =>
            simp only [hj] at h
            split at h
            · simpa using h.symm
            · cases h

/-- An entry of a line that is handled as a diff, in a run whose store has an own key `action`,
is `{action: actionFilter(store.action)}`: the state filter is not called. -/
theorem lineEntry_diff_line_action_key (parse : List Char → Option Json) (sf af : Json → Json)
    (store : Json) (line text : List Char) (e : Json)
    (h : lineEntry parse sf af store line = some e)
    (hd : matchDiff line = some text) (h1 : hasOwn store "action" = true) :
    e = .obj [("action", af (getProp store "action"))] := by
  unfold lineEntry at h
  split at h
  swap
  · cases h
  split at h
  · cases h
  · rename_i part hl
    split at h
    swap
    · cases h
    rename_i ht
    obtain ⟨parsed, rfl⟩ := lineToActionOrDiff_diff_line parse line text part hd hl ht
    simp only [returnedBy_diffWrapper, deref, filterStore] at h
    cases hi : isActionPart store with
    | error err => simp [hi] at h
    | ok isA =>
      cases isA with
      | false =>
        have hts : truthy store = true := by
          cases store <;> simp [hasOwn, ownFields] at h1
          rfl
        rw [isActionPart_false store hi hts] at h1
        cases h1
      | true =>
        simp only [hi, filterActions] at h
        by_cases hta : truthy (af (getProp store "action")) = true
        · simp only [hta, if_true, truthy_obj, Option.some.injEq] at h
          exact h.symm
        · simp [hta, truthy_null] at h

theorem mapE_error_of_mem {α β : Type} (f : α → Except String β) :
    ∀ (l : List α) (x : α) (e : String), x ∈ l → f x = .error e → ∃ e1, mapE f l = .error e1
  | [], x, e, hx, _ => by cases hx
  | y :: ys, x, e, hx, hf => by
    simp only [mapE]
    cases hy : f y with
    | error e2 => exact ⟨e2, rfl⟩
    | ok v =>
      rcases List.mem_cons.mp hx with rfl | hmem
      · rw [hf] at hy; cases hy
      · obtain ⟨e1, he1⟩ := mapE_error_of_mem f ys x e hmem hf
        exact ⟨e1, by simp only [he1]⟩

/-- A line that passes `lineFilter` and on which `lineToActionOrDiff` throws ends `undiff`. -/
theorem undiff_error_of_line (parse : List Char → Option Json)
    (ac : Json → Json → Json × Bool) (sf af : Json → Json) (log : String) (line : List Char)
    (e : String) (hmem : line ∈ splitLines log.data) (hf : lineFilter line = true)
    (hl : lineToActionOrDiff parse line = .error e) :
    ∃ e1, undiff parse ac sf af log = .error e1 := by
  have hm : line ∈ (splitLines log.data).filter lineFilter := List.mem_filter.mpr ⟨hmem, hf⟩
  obtain ⟨e1, he1⟩ := mapE_error_of_mem (lineToActionOrDiff parse) _ line e hm hl
  exact ⟨e1, by simp only [undiff, he1]⟩

theorem forEachE_ok (ac : Json → Json → Json × Bool) :
    ∀ (diffs : List Json) (store : Json), (∀ d ∈ diffs, coercionThrows d = false) →
      forEachE (applyCaught ac) store diffs = .ok (diffs.foldl (fun s d => (ac s d).1) store)
  | [], store, _ => rfl
  | d :: ds, store, h => by
    have hd : coercionThrows d = false := h d (List.mem_cons_self _ _)
    have hds : ∀ x ∈ ds, coercionThrows x = false := fun x hx => h x (List.mem_cons_of_mem _ hx)
    simp only [forEachE, applyCaught, hd, Bool.and_false, Bool.false_eq_true, if_false,
      List.foldl_cons]
    exact forEachE_ok ac ds _ hds

/-! ## The claims about `undiff` -/

/-- C1: on the end-to-end log (an action, a diff of kind `N` that creates `counter = 1`, a diff
of kind `E` that edits `counter` to 2) and with the identity filters, `undiff` emits
`{counter: 2}` for both diff lines, although the replay of the lines up to and including the
first diff line leaves the document `{counter: 1}`.  Every state entry is the one store object,
which holds the state after the last diff when the timeline is written: for every log, the
entry of every diff line is the final store (as long as the store has no top-level key
`action`). -/
theorem undiff_endToEnd_snapshots_share_final_store :
    (∀ release, undiff jsonParse (applyChange release) storeFilter actionFilter logEndToEnd =
        .ok [incrementEntry, .obj [("counter", .num 2 0)], .obj [("counter", .num 2 0)]]) ∧
      (∀ release, finalStore jsonParse (applyChange release) logEndToEndFirstTwo =
        .ok (.obj [("counter", .num 1 0)])) ∧
      Json.obj [("counter", .num 2 0)] ≠ Json.obj [("counter", .num 1 0)] ∧
      ∀ (parse : List Char → Option Json) (store : Json) (line : List Char) (e : Json),
        hasOwn store "action" = false → matchDiff line ≠ none →
        lineEntry parse storeFilter actionFilter store line = some e → e = store := by
  refine ⟨?_, ?_, by simp, ?_⟩
  · intro release
    cases release <;> rfl
  · intro release
    cases release <;> rfl
  · intro parse store line e h1 hd he
    cases hm : matchDiff line with
    | none => exact absurd hm hd
    | some text =>
      exact lineEntry_diff_line parse storeFilter actionFilter store line text e he hm h1 h1

/-- C2: a diff line whose payload is not JSON makes `JSON.parse` throw inside
`lineToActionOrDiff`, nothing catches it and `undiff` ends without a timeline; the same log
without that line is replayed to the end.  This holds for every log: a line that passes
`lineFilter` and whose captured payload `JSON.parse` rejects ends `undiff`. -/
theorem undiff_malformed_payload_aborts :
    lineFilter "From Keybase: 2 Diff:  [\x7b\"kind\":\"New\",\"path\":[\"counter\"]".data = true ∧
      (∀ release, undiff jsonParse (applyChange release) storeFilter actionFilter logMalformed =
        .error "SyntaxError: JSON.parse") ∧
      (∀ release,
        undiff jsonParse (applyChange release) storeFilter actionFilter logMalformedRemoved =
          .ok [incrementEntry, .obj []]) ∧
      ∀ (parse : List Char → Option Json) (ac : Json → Json → Json × Bool) (sf af : Json → Json)
        (log : String) (line text : List Char), line ∈ splitLines log.data →
        lineFilter line = true → matchDiff line = some text → parse text = none →
        ∃ e, undiff parse ac sf af log = .error e := by
  refine ⟨by rfl, ?_, ?_, ?_⟩
  · intro release
    cases release <;> rfl
  · intro release
    cases release <;> rfl
  · intro parse ac sf af log line text hmem hf hd hp
    refine undiff_error_of_line parse ac sf af log line "SyntaxError: JSON.parse" hmem hf ?_
    simp only [lineToActionOrDiff, hd, hp]

/-- C3: the record `opSetNull`, `opThrows`, `opSetC` makes `buildStore` throw and ends
`undiff`: `applyChange` throws on the second operation, the catch handler builds its message
with `${diff}`, and converting that operation to a string throws because it has an own key
`toString`.  The third operation is never applied, although applying all three would leave
`{a: null, c: 2}`.  For a record none of whose operations throws on that conversion,
`buildStore` does apply every operation in order and returns the store. -/
theorem buildStore_handler_can_throw :
    (∀ release, applyChange release (.obj [("a", .null)]) opThrows =
        (.obj [("a", .null)], true)) ∧
      coercionThrows opThrows = true ∧
      (∀ release, buildStore (applyChange release) (.obj [])
          (.obj [("diff", .arr [opSetNull, opThrows, opSetC])]) =
        .error "TypeError: Cannot convert object to primitive value") ∧
      (∀ release, undiff jsonParse (applyChange release) storeFilter actionFilter
          logFailingOperation = .error "TypeError: Cannot convert object to primitive value") ∧
      (∀ release,
        [opSetNull, opThrows, opSetC].foldl (fun s d => (applyChange release s d).1) (.obj []) =
          .obj [("a", .null), ("c", .num 2 0)]) ∧
      ∀ (ac : Json → Json → Json × Bool) (store : Json) (diffs : List Json),
        (∀ d ∈ diffs, coercionThrows d = false) →
        buildStore ac store (.obj [("diff", .arr diffs)]) =
          .ok (diffs.foldl (fun s d => (ac s d).1) store, .store) := by
  refine ⟨?_, by rfl, ?_, ?_, ?_, ?_⟩
  · intro release
    cases release <;> rfl
  · intro release
    cases release <;> rfl
  · intro release
    cases release <;> rfl
  · intro release
    cases release <;> rfl
  · intro ac store diffs h
    simp only [buildStore, isActionPart_diffWrapper, getProp_diffWrapper, truthy_obj, truthy,
      Bool.and_self, if_true, forEachE_ok ac diffs store h]

/-- C4: with a state filter that redacts every document and the identity action filter, a log
of one diff line (kind `N`) that creates the top-level key `action` yields an entry
`{action: …}` that carries part of the store, although the log has no action line.  For every
log and every pair of filters, the entry of a diff line in a run whose store has an own key
`action` is `{action: actionFilter(store.action)}`: `filterStore` takes the store for an action
part and never calls the state filter. -/
theorem undiff_redact_leaks_action_key :
    (∀ release, undiff jsonParse (applyChange release) redactAll actionFilter
        logStoreWithActionKey = .ok [.obj [("action", .obj [("type", .str "chat")])]]) ∧
      (splitLines logStoreWithActionKey.data).all (fun line => (matchAction line).isNone)
        = true ∧
      ∀ (parse : List Char → Option Json) (sf af : Json → Json) (store : Json)
        (line : List Char) (e : Json), hasOwn store "action" = true → matchDiff line ≠ none →
        lineEntry parse sf af store line = some e →
        e = .obj [("action", af (getProp store "action"))] := by
  refine ⟨?_, by rfl, ?_⟩
  · intro release
    cases release <;> rfl
  · intro parse sf af store line e h1 hd he
    cases hm : matchDiff line with
    | none => exact absurd hm hd
    | some text => exact lineEntry_diff_line_action_key parse sf af store line text e he hm h1

/-- C5 (counterexample): `renameFilter` returns `null` for every action whose type starts
with `gregor`, yet the timeline of a log with one action of type `chat` holds an action of type
`gregor.renamed`: the entry carries the result of the filter, whatever its type. -/
theorem undiff_actionFilter_can_emit_filtered_type :
    (∀ a, typeStartsWith "gregor" a = true → renameFilter a = .null) ∧
      undiff jsonParse (applyChange .legacy) storeFilter renameFilter logChat =
        .ok [.obj [("action", .obj [("type", .str "gregor.renamed")])]] ∧
      typeStartsWith "gregor" (.obj [("type", .str "gregor.renamed")]) = true := by
  refine ⟨?_, by rfl, by rfl⟩
  intro a ha
  simp [renameFilter, ha]

/-- C5 (amended): when the action filter returns `null` for every action whose type starts
with the prefix and `undiff` completes, the timeline is the list of the entries of the lines,
in line order, and for every line that `lineToActionOrDiff` reads as an action `a` (the line
has no diff marker, it matches the action pattern and its payload parses to `a`): the line has
no entry when the type of `a` starts with the prefix; an entry of the line is
`{action: actionFilter(a)}`, and then the type of `a` does not start with the prefix; and when
the filter returns a record for `a`, that entry exists and, for a line of the log, is in the
timeline. -/
theorem undiff_actionFilter_entries (parse : List Char → Option Json)
    (ac : Json → Json → Json × Bool) (sf af : Json → Json) (log pfx : String) (tl : List Json)
    (hf : ∀ a, typeStartsWith pfx a = true → af a = .null)
    (h : undiff parse ac sf af log = .ok tl) :
    ∃ store, finalStore parse ac log = .ok store ∧
      tl = (splitLines log.data).filterMap (lineEntry parse sf af store) ∧
      ∀ line name text a, matchDiff line = none → matchAction line = some (name, text) →
        parse text = some a →
        (typeStartsWith pfx a = true → lineEntry parse sf af store line = none) ∧
        (∀ e, lineEntry parse sf af store line = some e →
          e = .obj [("action", af a)] ∧ typeStartsWith pfx a = false) ∧
        (isRecord (af a) = true →
          lineEntry parse sf af store line = some (.obj [("action", af a)]) ∧
          (line ∈ splitLines log.data → Json.obj [("action", af a)] ∈ tl)) := by
  obtain ⟨store, hs, htl⟩ := undiff_ok parse ac sf af log tl h
  refine ⟨store, hs, htl, ?_⟩
  intro line name text a hd hm hp
  have hle := lineEntry_action_line parse sf af store line name text a hd hm hp
  refine ⟨?_, ?_, ?_⟩
  · intro hpfx
    rw [hle, hf a hpfx, truthy_null]
    rfl
  · intro e he
    rw [hle] at he
    by_cases ht : truthy (af a) = true
    · rw [if_pos ht] at he
      simp only [Option.some.injEq] at he
      refine ⟨he.symm, ?_⟩
      cases hpfx : typeStartsWith pfx a with
      | false => rfl
      | true => rw [hf a hpfx, truthy_null] at ht; cases ht
    · rw [if_neg ht] at he
      cases he
  · intro hrec
    have ht : truthy (af a) = true := by
      cases hfa : af a <;> simp [hfa, isRecord] at hrec
      rfl
    have hsome : lineEntry parse sf af store line = some (.obj [("action", af a)]) := by
      rw [hle, if_pos ht]
    refine ⟨hsome, ?_⟩
    intro hmem
    rw [htl, List.mem_filterMap]
    exact ⟨line, hmem, hsome⟩

/-- C5 (witness): the amended claim at the log of a `gregor.push` action and a `chat` action,
with the filter that drops the actions whose type starts with `gregor`. -/
theorem undiff_actionFilter_entries_witness :
    (∀ a, typeStartsWith "gregor" a = true → dropGregor a = .null) ∧
      undiff jsonParse (applyChange .legacy) storeFilter dropGregor logGregorChat =
        .ok [chatEntry] ∧
      ∃ store, finalStore jsonParse (applyChange .legacy) logGregorChat = .ok store ∧
        [chatEntry] = (splitLines logGregorChat.data).filterMap
          (lineEntry jsonParse storeFilter dropGregor store) ∧
        ∀ line name text a, matchDiff line = none → matchAction line = some (name, text) →
          jsonParse text = some a →
          (typeStartsWith "gregor" a = true →
            lineEntry jsonParse storeFilter dropGregor store line = none) ∧
          (∀ e, lineEntry jsonParse storeFilter dropGregor store line = some e →
            e = .obj [("action", dropGregor a)] ∧ typeStartsWith "gregor" a = false) ∧
          (isRecord (dropGregor a) = true →
            lineEntry jsonParse storeFilter dropGregor store line =
              some (.obj [("action", dropGregor a)]) ∧
            (line ∈ splitLines logGregorChat.data →
              Json.obj [("action", dropGregor a)] ∈ [chatEntry])) :=
  have hf : ∀ a, typeStartsWith "gregor" a = true → dropGregor a = .null := by
    intro a ha
    simp [dropGregor, ha]
  ⟨hf, by rfl,
    undiff_actionFilter_entries jsonParse (applyChange .legacy) storeFilter dropGregor
      logGregorChat "gregor" [chatEntry] hf (by rfl)⟩

/-- C6: a line that does not start with `From Keybase: ` and passes `lineFilter` through the
action marker alone is read as a diff record by `lineToActionOrDiff` when it also holds the
text of the diff marker: the diff pattern is tried first and the origin is not checked again. -/
theorem lineToActionOrDiff_action_line_read_as_diff :
    "From Keybase: ".toList.isPrefixOf lineNoteWithDiff.data = false ∧
      containsText " Dispatching action: ".toList lineNoteWithDiff.data = true ∧
      lineFilter lineNoteWithDiff.data = true ∧
      matchAction lineNoteWithDiff.data ≠ none ∧
      lineToActionOrDiff jsonParse lineNoteWithDiff.data =
        .ok (.obj [("diff", .arr [.obj [("kind", .str "N"), ("path", .arr [.str "x"]),
          ("rhs", .num 1 0)]])]) ∧
      ∀ release, undiff jsonParse (applyChange release) storeFilter actionFilter
        lineNoteWithDiff = .ok [.obj [("x", .num 1 0)]] := by
  refine ⟨by rfl, by rfl, by rfl, ?_, by rfl, ?_⟩
  · have hm : (matchAction lineNoteWithDiff.data).isSome = true := by rfl
    intro hn
    rw [hn] at hm
    cases hm
  · intro release
    cases release <;> rfl

/-- C7 (counterexample): for the action line with the name `foo` and the payload
`{"type":"bar"}` the emitted record has the type `bar`, not `foo`. -/
theorem lineToActionOrDiff_ignores_name :
    matchAction lineFooBar.data = some ("foo".data, "\x7b\"type\":\"bar\"\x7d".data) ∧
      lineToActionOrDiff jsonParse lineFooBar.data =
        .ok (.obj [("action", .obj [("type", .str "bar")])]) ∧
      getProp (.obj [("type", .str "bar")]) "type" ≠ .str "foo" := by
  refine ⟨by rfl, by rfl, ?_⟩
  have hg : getProp (.obj [("type", .str "bar")]) "type" = .str "bar" := by rfl
  rw [hg]
  simp

/-- C7 (amended): the ActionRecord that `lineToActionOrDiff` emits for an action line is the
parsed payload itself, wrapped as `{action: payload}`; the captured name is not used, so the
type of the record is the payload's own `type` field. -/
theorem lineToActionOrDiff_action_payload (parse : List Char → Option Json)
    (line name text : List Char) (a : Json) (hd : matchDiff line = none)
    (hm : matchAction line = some (name, text)) (hp : parse text = some a) :
    lineToActionOrDiff parse line = .ok (.obj [("action", a)]) ∧
      ∀ r, lineToActionOrDiff parse line = .ok r →
        getProp (getProp r "action") "type" = getProp a "type" := by
  have hl : lineToActionOrDiff parse line = .ok (.obj [("action", a)]) := by
    simp only [lineToActionOrDiff, hd, hm, hp]
  refine ⟨hl, ?_⟩
  intro r hr
  rw [hl] at hr
  cases hr
  rfl

/-- C7 (witness): the amended claim at the line with the name `foo` and the type `bar`. -/
theorem lineToActionOrDiff_action_payload_witness :
    matchDiff lineFooBar.data = none ∧
      matchAction lineFooBar.data = some ("foo".data, "\x7b\"type\":\"bar\"\x7d".data) ∧
      jsonParse "\x7b\"type\":\"bar\"\x7d".data = some (.obj [("type", .str "bar")]) ∧
      (lineToActionOrDiff jsonParse lineFooBar.data =
          .ok (.obj [("action", .obj [("type", .str "bar")])]) ∧
        ∀ r, lineToActionOrDiff jsonParse lineFooBar.data = .ok r →
          getProp (getProp r "action") "type" = getProp (.obj [("type", .str "bar")]) "type") :=
  ⟨by rfl, by rfl, by rfl,
    lineToActionOrDiff_action_payload jsonParse lineFooBar.data "foo".data
      "\x7b\"type\":\"bar\"\x7d".data (.obj [("type", .str "bar")]) (by rfl) (by rfl) (by rfl)⟩

/-- C8: the timeline of `undiff` keeps the order of the log: there is a strictly increasing map
from the positions of the timeline to the line numbers of the log such that every entry of the
timeline is the entry of its line. -/
theorem undiff_preserves_line_order (parse : List Char → Option Json)
    (ac : Json → Json → Json × Bool) (sf af : Json → Json) (log : String) (tl : List Json)
    (h : undiff parse ac sf af log = .ok tl) :
    ∃ store, finalStore parse ac log = .ok store ∧
      ∃ f : Fin tl.length → Fin (splitLines log.data).length, StrictMono f ∧
        ∀ i, lineEntry parse sf af store ((splitLines log.data).get (f i)) =
          some (tl.get i) := by
  obtain ⟨store, hs, htl⟩ := undiff_ok parse ac sf af log tl h
  subst htl
  exact ⟨store, hs, filterMap_strictMono _ _⟩

/-- C8 (witness): the order of the end-to-end log is kept. -/
theorem undiff_preserves_line_order_witness :
    undiff jsonParse (applyChange .legacy) storeFilter actionFilter logEndToEnd =
        .ok timelineEndToEnd ∧
      ∃ store, finalStore jsonParse (applyChange .legacy) logEndToEnd = .ok store ∧
        ∃ f : Fin timelineEndToEnd.length → Fin (splitLines logEndToEnd.data).length,
          StrictMono f ∧
          ∀ i, lineEntry jsonParse storeFilter actionFilter store
              ((splitLines logEndToEnd.data).get (f i)) = some (timelineEndToEnd.get i) :=
  ⟨by rfl,
    undiff_preserves_line_order jsonParse (applyChange .legacy) storeFilter actionFilter
      logEndToEnd timelineEndToEnd (by rfl)⟩

/-- C9 (counterexample): a log whose only line is a diff line and a log whose only line is an
action line give the same array `parts`, hence the same `log.json`: the state entry of a store
`{action: {type: chat}}` and the action entry of the action `{type: chat}` are the same
value. -/
theorem undiff_state_entry_equals_action_entry :
    (splitLines logStoreWithActionKey.data).map (fun line => (matchDiff line).isSome) = [true] ∧
      (splitLines logChat.data).map (fun line => (matchDiff line).isSome) = [false] ∧
      (∀ release, finalStore jsonParse (applyChange release) logStoreWithActionKey =
        .ok chatEntry) ∧
      (∀ release, undiff jsonParse (applyChange release) storeFilter actionFilter
        logStoreWithActionKey = .ok [chatEntry]) ∧
      ∀ release, undiff jsonParse (applyChange release) storeFilter actionFilter logChat =
        .ok [chatEntry] := by
  refine ⟨by rfl, by rfl, ?_, ?_, ?_⟩
  · intro release
    cases release <;> rfl
  · intro release
    cases release <;> rfl
  · intro release
    cases release <;> rfl

/-- C9 (amended): entries carry no tag of their own.  When neither the store nor the filtered
store has a top-level key `action`, the entry of a diff line is the filtered store and has no
own key `action`, and the entry of an action line is `{action: filtered action}`; an own key
`action` then tells the two kinds of entry apart. -/
theorem undiff_entries_discriminated (parse : List Char → Option Json)
    (ac : Json → Json → Json × Bool) (sf af : Json → Json) (log : String) (tl : List Json)
    (store : Json) (h : undiff parse ac sf af log = .ok tl)
    (hs : finalStore parse ac log = .ok store) (h1 : hasOwn store "action" = false)
    (h2 : hasOwn (sf store) "action" = false) :
    tl = (splitLines log.data).filterMap (lineEntry parse sf af store) ∧
      ∀ line e, lineEntry parse sf af store line = some e →
        (matchDiff line ≠ none → e = sf store ∧ hasOwn e "action" = false) ∧
        (matchDiff line = none → ∃ name text a, matchAction line = some (name, text) ∧
          parse text = some a ∧ e = .obj [("action", af a)] ∧ hasOwn e "action" = true) := by
  obtain ⟨store1, hs1, htl⟩ := undiff_ok parse ac sf af log tl h
  rw [hs] at hs1
  cases hs1
  refine ⟨htl, ?_⟩
  intro line e he
  constructor
  · intro hd
    cases hm : matchDiff line with
    | none => exact absurd hm hd
    | some text =>
      have := lineEntry_diff_line parse sf af store line text e he hm h1 h2
      subst this
      exact ⟨rfl, h2⟩
  · intro hd
    obtain ⟨name, text, a, hm, hp, ha⟩ := lineEntry_not_diff parse sf af store line e he hd
    subst ha
    exact ⟨name, text, a, hm, hp, rfl, hasOwn_actionWrapper _⟩

/-- C9 (witness): the amended claim at the end-to-end log, whose store `{counter: 2}` has no
key `action`. -/
theorem undiff_entries_discriminated_witness :
    undiff jsonParse (applyChange .legacy) storeFilter actionFilter logEndToEnd =
        .ok timelineEndToEnd ∧
      finalStore jsonParse (applyChange .legacy) logEndToEnd =
        .ok (.obj [("counter", .num 2 0)]) ∧
      hasOwn (.obj [("counter", .num 2 0)]) "action" = false ∧
      hasOwn (storeFilter (.obj [("counter", .num 2 0)])) "action" = false ∧
      (timelineEndToEnd = (splitLines logEndToEnd.data).filterMap
          (lineEntry jsonParse storeFilter actionFilter (.obj [("counter", .num 2 0)])) ∧
        ∀ line e, lineEntry jsonParse storeFilter actionFilter
            (.obj [("counter", .num 2 0)]) line = some e →
          (matchDiff line ≠ none →
            e = storeFilter (.obj [("counter", .num 2 0)]) ∧ hasOwn e "action" = false) ∧
          (matchDiff line = none → ∃ name text a, matchAction line = some (name, text) ∧
            jsonParse text = some a ∧ e = .obj [("action", actionFilter a)] ∧
            hasOwn e "action" = true)) :=
  ⟨by rfl, by rfl, by rfl, by rfl,
    undiff_entries_discriminated jsonParse (applyChange .legacy) storeFilter actionFilter
      logEndToEnd timelineEndToEnd (.obj [("counter", .num 2 0)]) (by rfl) (by rfl) (by rfl)
      (by rfl)⟩

end YarnHelper

namespace Tabs

/-! ## The claim about `prettify` -/

theorem lookup_mem {α β : Type} [BEq α] [LawfulBEq α] (k : α) (v : β) :
    ∀ l : List (α × β), l.lookup k = some v → (k, v) ∈ l
  | [], h => by simp at h
  | (a, b) :: rest, h => by
    rw [List.lookup_cons] at h
    by_cases hk : (k == a) = true
    · rw [hk] at h
      simp only [Option.some.injEq] at h
      have hka : k = a := by simpa using hk
      rw [hka, h]
      exact List.mem_cons_self _ _
    · have hk2 : (k == a) = false := by simpa using hk
      rw [hk2] at h
      exact List.mem_cons_of_mem _ (lookup_mem k v rest h)

/-- For a name that `Object.prototype` does not define, `prettify` gives the display name of
the table when the table has one and the fallback string otherwise. -/
theorem prettify_of_not_inherited (tabName : String) (h : tabName ∉ objectPrototypeNames) :
    prettify tabName =
      match prettyNames.lookup tabName with
      | some (.str s) => .str s
      | _ => .str "You have found a bug" := by
  unfold prettify getPrettyName
  cases hl : prettyNames.lookup tabName with
  | none => simp [h, Value.truthy]
  | some v =>
    have hm := lookup_mem tabName v prettyNames hl
    simp only [prettyNames, List.mem_cons, Prod.mk.injEq, List.mem_singleton, List.not_mem_nil,
      or_false] at hm
    rcases hm with ⟨_, rfl⟩ | ⟨_, rfl⟩ | ⟨_, rfl⟩ | ⟨_, rfl⟩ | ⟨_, rfl⟩ | ⟨_, rfl⟩ |
      ⟨_, rfl⟩ | ⟨_, rfl⟩ <;> rfl

/-- C10: `prettify` gives the display name for the seven named tabs and the fallback for
`startupTab` and for every name that neither the table nor `Object.prototype` defines, but for
`constructor` and `toString` the property read finds the member inherited from
`Object.prototype`, which is truthy, and `prettify` returns that member, not the fallback
string. -/
theorem prettify_inherited_name :
    prettify folderTab = .str "Folders" ∧ prettify chatTab = .str "Chat" ∧
      prettify peopleTab = .str "People" ∧ prettify devicesTab = .str "Devices" ∧
      prettify settingsTab = .str "Settings" ∧ prettify loginTab = .str "Login" ∧
      prettify profileTab = .str "Profile" ∧
      prettify startupTab = .str "You have found a bug" ∧
      (∀ tabName, tabName ∉ objectPrototypeNames → prettyNames.lookup tabName = none →
        prettify tabName = .str "You have found a bug") ∧
      prettify "constructor" = .inherited "constructor" ∧
      prettify "toString" = .inherited "toString" ∧
      prettify "constructor" ≠ .str "You have found a bug" := by
  refine ⟨by decide, by decide, by decide, by decide, by decide, by decide, by decide,
    by decide, ?_, by decide, by decide, by decide⟩
  intro tabName h hl
  rw [prettify_of_not_inherited tabName h, hl]

end Tabs
